import Mathlib

/-!
Verification of the clipboard-history + paste-injection engine of the
`clipped` desktop clipboard manager (`src/main.js`), via a shallow
embedding of its history engine, clipboard watcher, paste injector,
shell escaping, IPC operation traces and hotkey handler.
-/

namespace Clipped

/-- The two entry variants produced by the clipboard watcher
(`type: "text"` / `type: "image"` in `src/main.js`). -/
inductive ItemType where
  | text
  | image
deriving DecidableEq, Repr

/-- A clipboard history entry, as constructed in
`startClipboardWatcher` (`src/main.js`): `type`, `content`,
`timestamp` (an ISO string), `pinned`, `id` (from `Date.now()`). -/
structure Item where
  type : ItemType
  content : String
  timestamp : String
  pinned : Bool
  id : Nat
deriving DecidableEq, Repr

/-- The contents of a history list, newest first. -/
def contents (l : List Item) : List String := l.map (fun x => x.content)

/-- `addToHistory` (`src/main.js` lines 440-462), data part: filter out
entries with the same `content`, unshift the new item, then
`slice(0, maxItems)`. -/
def addToHistory (maxItems : Nat) (item : Item) (l : List Item) : List Item :=
  ((item :: l.filter (fun existingItem => existingItem.content ≠ item.content)).take maxItems)

/-- Repeated `addToHistory` calls starting from the empty list. -/
def runAdds (maxItems : Nat) (seq : List Item) : List Item :=
  seq.foldl (fun h e => addToHistory maxItems e h) []

/-- JS `hay.includes(needle)`: `needle` occurs in `hay` as a contiguous
substring. -/
def jsIncludes (hay needle : String) : Bool :=
  hay.data.tails.any (fun t => needle.data.isPrefixOf t)

/-- JS `s.toLowerCase()`, modelled as per-character lowercasing. -/
def jsToLower (s : String) : String :=
  ⟨s.data.map Char.toLower⟩

/-- JS `s.trim()`, modelled as stripping leading and trailing
whitespace. -/
def jsTrim (s : String) : String :=
  ⟨((s.data.dropWhile Char.isWhitespace).reverse.dropWhile Char.isWhitespace).reverse⟩

/-- The `search-history` IPC handler (`src/main.js` lines 252-257):
`if (!query) return history` (for strings only `""` is falsy), otherwise
filter by case-insensitive content inclusion
(`item.content.toLowerCase().includes(query.toLowerCase())`). -/
def searchHistory (hist : List Item) (query : String) : List Item :=
  if query = "" then hist
  else hist.filter (fun item => jsIncludes (jsToLower item.content) (jsToLower query))

/-- The spec-side reading of a search hit: the lowercased query occurs
inside the lowercased content as a contiguous substring. -/
def matchesQuery (query : String) (it : Item) : Prop :=
  ∃ pre post : List Char,
    (jsToLower it.content).data = pre ++ (jsToLower query).data ++ post

/-- The per-character effect of `replace(/'/g, "'\\''")`: a single quote
becomes the four characters quote, backslash, quote, quote. -/
def escQuote (c : Char) : List Char :=
  if c = '\'' then ['\'', '\\', '\'', '\''] else [c]

/-- `shellEscape` (`src/main.js` lines 21-24) on an actual string (the
`str == null` guard is out of scope since `item.content` is always a
string): wrap in single quotes after replacing every embedded single
quote. -/
def shellEscape (s : String) : String :=
  ⟨'\'' :: ((s.data.map escQuote).flatten ++ ['\''])⟩

/-- Quoting state of the shell lexer model: outside quotes, inside a
single-quoted span, or right after an unquoted backslash. -/
inductive QState where
  | outside
  | inside
  | escaped
deriving DecidableEq

/-- Model of how a POSIX shell lexes one word. Outside single quotes only
a quote (entering a quoted span) or a backslash escape is accepted — any
other bare character is a potential metacharacter and is rejected
(`none`). Inside single quotes every character except the closing quote
is literal. An unterminated quote or a trailing backslash is rejected.
The result is the literal argument the shell would deliver to the
command. -/
def shellLex : QState → List Char → Option (List Char)
  | QState.outside, [] => some []
  | QState.inside, [] => none
  | QState.escaped, [] => none
  | QState.outside, c :: rest =>
    if c = '\'' then shellLex QState.inside rest
    else if c = '\\' then shellLex QState.escaped rest
    else none
  | QState.escaped, c :: rest => (shellLex QState.outside rest).map (fun l => c :: l)
  | QState.inside, c :: rest =>
    if c = '\'' then shellLex QState.outside rest
    else (shellLex QState.inside rest).map (fun l => c :: l)

/-- Lex a whole word starting outside quotes. -/
def shellLexWord (s : String) : Option String :=
  (shellLex QState.outside s.data).map (fun l => ⟨l⟩)

/-- `tryCommandsSequentially` (`src/main.js` lines 27-36), with the exec
environment abstracted as `ex : command → exit-success?`. Returns the
final callback invocation (error, carrying the last failing command, or
success) together with the list of commands actually executed in
order. -/
def tryCommandsSequentially (ex : String → Bool) : List String → Except String Bool × List String
  | [] => (Except.error "no-commands", [])
  | cmd :: rest =>
    if ex cmd then (Except.ok true, [cmd])
    else if rest.isEmpty then (Except.error cmd, [cmd])
    else
      let r := tryCommandsSequentially ex rest
      (r.1, cmd :: r.2)

/-- Outcome of `pasteItem` (`src/main.js` lines 465-521): the resolved
promise value, the injection commands actually run, and the text staged
onto the OS clipboard (for text payloads). -/
structure PasteResult where
  resolved : Bool
  ran : List String
  clipboardText : Option String
deriving DecidableEq, Repr

/-- The injection command chain built in `runPasteSequence`
(`src/main.js` lines 481-500), Wayland vs X11, with the text commands
appended only for non-image payloads. -/
def buildPasteCommands (wayland : Bool) (item : Item) : List String :=
  if wayland then
    ["wtype -M ctrl v -m ctrl"] ++
      (if item.type ≠ ItemType.image then
        ["wtype --delay 1 " ++ shellEscape item.content]
      else [])
  else
    ["xdotool key --clearmodifiers ctrl+v"] ++
      (if item.type ≠ ItemType.image then
        ["xdotool type --clearmodifiers --delay 1 " ++ shellEscape item.content,
         "xclip -selection clipboard -o | xdotool type --clearmodifiers --file -"]
      else [])

/-- `pasteItem` (`src/main.js` lines 465-521): stage the content on the
OS clipboard, run the fallback chain, and resolve `true` from the chain
callback regardless of the chain's outcome (line 502-505 pass a callback
that ignores its arguments and calls `resolve(true)`). -/
def pasteItem (wayland : Bool) (ex : String → Bool) (item : Item) : PasteResult :=
  let staged : Option String :=
    if item.type = ItemType.image then none else some item.content
  let r := tryCommandsSequentially ex (buildPasteCommands wayland item)
  { resolved := true, ran := r.2, clipboardText := staged }

/-- The OS clipboard as the watcher sees it: the text channel and the
image channel (rendered as a data URL, `""` for an empty image). -/
structure ClipboardState where
  text : String
  imageDataURL : String
deriving DecidableEq, Repr

/-- The watcher's session state (`src/main.js`):
`lastClipboardContent`, `lastImageDataURL` and the history list. -/
structure WatcherState where
  lastClipboardContent : String
  lastImageDataURL : String
  clipboardHistory : List Item
deriving DecidableEq, Repr

/-- The effect of `pasteItem`'s staging step on the OS clipboard
(`src/main.js` lines 467-474): write the image channel for image items,
the text channel otherwise. Note that `pasteItem` never touches
`lastClipboardContent` or `lastImageDataURL`. -/
def clipboardAfterPaste (clip : ClipboardState) (item : Item) : ClipboardState :=
  if item.type = ItemType.image then { clip with imageDataURL := item.content }
  else { clip with text := item.content }

/-- One tick of the `setInterval` poller in `startClipboardWatcher`
(`src/main.js` lines 318-357): the text channel adds an entry when the
clipboard text is truthy, differs from `lastClipboardContent` and has a
nonempty trim; the image channel adds an entry when the image is
nonempty, its data URL differs from `lastImageDataURL` and is longer
than 100 characters. Returns the new state and the list of items passed
to `addToHistory` this tick. -/
def watcherTick (maxItems freshId : Nat) (nowTs : String) (clip : ClipboardState)
    (s : WatcherState) : WatcherState × List Item :=
  let step1 :=
    if clip.text ≠ "" ∧ clip.text ≠ s.lastClipboardContent ∧ 0 < (jsTrim clip.text).length then
      let it : Item := ⟨ItemType.text, clip.text, nowTs, false, freshId⟩
      ({ s with clipboardHistory := addToHistory maxItems it s.clipboardHistory,
                lastClipboardContent := clip.text }, [it])
    else (s, ([] : List Item))
  let s1 := step1.1
  let step2 :=
    if clip.imageDataURL ≠ "" ∧ clip.imageDataURL ≠ s1.lastImageDataURL ∧
        100 < clip.imageDataURL.length then
      let it : Item := ⟨ItemType.image, clip.imageDataURL, nowTs, false, freshId⟩
      ({ s1 with clipboardHistory := addToHistory maxItems it s1.clipboardHistory,
                 lastImageDataURL := clip.imageDataURL }, [it])
    else (s1, ([] : List Item))
  (step2.1, step1.2 ++ step2.2)

/-- The externally observable effects of a history mutation: a
write-through to the persistent store (`saveHistory`, i.e.
`store.set("clipboardHistory", ...)`) or a `clipboard-updated`
notification to the renderer, each carrying the list it communicates. -/
inductive HEvent where
  | storeWrite (h : List Item)
  | notify (h : List Item)
deriving DecidableEq, Repr

/-- Whether an event trace contains a renderer notification. -/
def hasNotify (tr : List HEvent) : Bool :=
  tr.any (fun e => match e with | HEvent.notify _ => true | _ => false)

/-- `addToHistory` with its effect trace (`src/main.js` lines 440-462):
`saveHistory()` first, then `webContents.send("clipboard-updated", ...)`
when the main window exists and is not destroyed. -/
def addToHistoryOp (winPresent : Bool) (maxItems : Nat) (item : Item) (l : List Item) :
    List Item × List HEvent :=
  let h := addToHistory maxItems item l
  (h, HEvent.storeWrite h :: if winPresent then [HEvent.notify h] else [])

/-- The `toggle-pin` IPC handler (`src/main.js` lines 219-227): when the
index is in bounds, flip `pinned`, `saveHistory()` and return `true`;
no renderer notification is sent. -/
def togglePinOp (index : Nat) (l : List Item) : List Item × List HEvent × Bool :=
  match l[index]? with
  | some it =>
    let h := l.set index { it with pinned := !it.pinned }
    (h, ([HEvent.storeWrite h], true))
  | none => (l, (([] : List HEvent), false))

/-- The `delete-item` IPC handler (`src/main.js` lines 230-237): when the
index is in bounds, `splice(index, 1)`, `saveHistory()` and return
`true`; no renderer notification is sent. -/
def deleteItemOp (index : Nat) (l : List Item) : List Item × List HEvent × Bool :=
  if index < l.length then
    (l.eraseIdx index, ([HEvent.storeWrite (l.eraseIdx index)], true))
  else (l, (([] : List HEvent), false))

/-- `clearHistory` (`src/main.js` lines 532-542): empty the list,
`saveHistory()`, then notify the renderer when the window exists. -/
def clearHistoryOp (winPresent : Bool) (_l : List Item) : List Item × List HEvent :=
  ([], HEvent.storeWrite [] :: if winPresent then [HEvent.notify []] else [])

/-- The persisted hotkey and the currently registered shortcuts. -/
structure HotkeyState where
  stored : String
  registered : List String
deriving DecidableEq, Repr

/-- The fallback combinations tried by `setupGlobalShortcuts`
(`src/main.js` line 155). -/
def hotkeyFallbacks : List String := ["Super+V", "Alt+V", "CommandOrControl+Alt+V"]

/-- The fallback loop of `setupGlobalShortcuts` (`src/main.js` lines
158-178): skip the primary, register the first combination that does not
throw and persist it via `store.set("hotkey", fallback)`; leave the
state unchanged when every fallback throws. `reg c = false` models
`globalShortcut.register(c, ...)` throwing. -/
def tryHotkeyFallbacks (reg : String → Bool) (primary : String) (st : HotkeyState) :
    List String → HotkeyState
  | [] => st
  | f :: fs =>
    if f = primary then tryHotkeyFallbacks reg primary st fs
    else if reg f then { stored := f, registered := st.registered ++ [f] }
    else tryHotkeyFallbacks reg primary st fs

/-- `setupGlobalShortcuts` (`src/main.js` lines 141-184): try the stored
hotkey, then the fallback chain. -/
def setupGlobalShortcuts (reg : String → Bool) (st : HotkeyState) : HotkeyState :=
  if reg st.stored then { st with registered := st.registered ++ [st.stored] }
  else tryHotkeyFallbacks reg st.stored st hotkeyFallbacks

/-- The `set-hotkey` IPC handler (`src/main.js` lines 281-308):
`unregisterAll()`, then `store.set("hotkey", hotkeyString)` BEFORE the
registration attempt; on success return `true`; if registration throws,
fall back to `setupGlobalShortcuts` and return `true` (the inner
`return false` is reachable only if that fallback itself throws, which
the modelled code cannot do). -/
def setHotkeyHandler (reg : String → Bool) (st : HotkeyState) (hotkeyString : String) :
    HotkeyState × Bool :=
  let st1 : HotkeyState := { st with stored := hotkeyString, registered := [] }
  if reg hotkeyString then ({ st1 with registered := [hotkeyString] }, true)
  else (setupGlobalShortcuts reg st1, true)

lemma contents_sublist_of_sublist {l₁ l₂ : List Item} (h : l₁.Sublist l₂) :
    (contents l₁).Sublist (contents l₂) := h.map _

lemma nodup_contents_addToHistory (maxItems : Nat) (item : Item) (l : List Item)
    (h : (contents l).Nodup) : (contents (addToHistory maxItems item l)).Nodup := by
  have hsub : (addToHistory maxItems item l).Sublist
      (item :: l.filter (fun x => x.content ≠ item.content)) := List.take_sublist _ _
  have hcons : (contents (item :: l.filter (fun x => x.content ≠ item.content))).Nodup := by
    simp only [contents, List.map_cons, List.nodup_cons]
    constructor
    · intro hmem
      rcases List.mem_map.mp hmem with ⟨x, hx, hcx⟩
      have := (List.mem_filter.mp hx).2
      simp only [decide_eq_true_eq] at this
      exact this hcx
    · exact ((List.filter_sublist l).map _).nodup h
  exact ((contents_sublist_of_sublist hsub).nodup hcons)

lemma addToHistory_headq (maxItems : Nat) (item : Item) (l : List Item)
    (h : 1 ≤ maxItems) : (addToHistory maxItems item l).head? = some item := by
  obtain ⟨m, rfl⟩ := Nat.exists_eq_add_of_le h
  simp [addToHistory, Nat.add_comm 1 m, List.take_succ_cons]

lemma addToHistory_unique_content (maxItems : Nat) (item : Item) (l : List Item) :
    ∀ x ∈ addToHistory maxItems item l, x.content = item.content → x = item := by
  intro x hx hcx
  have hx' : x ∈ item :: l.filter (fun e => e.content ≠ item.content) :=
    (List.take_sublist _ _).mem hx
  rcases List.mem_cons.mp hx' with h | h
  · exact h
  · have := (List.mem_filter.mp h).2
    simp only [decide_eq_true_eq] at this
    exact absurd hcx this

lemma nodup_contents_runAdds (maxItems : Nat) (seq : List Item) :
    (contents (runAdds maxItems seq)).Nodup := by
  suffices h : ∀ (s : List Item) (start : List Item), (contents start).Nodup →
      (contents (s.foldl (fun h e => addToHistory maxItems e h) start)).Nodup by
    exact h seq [] (by simp [contents])
  intro s
  induction s with
  | nil => intro start hs; simpa using hs
  | cons e t ih =>
      intro start hs
      exact ih _ (nodup_contents_addToHistory maxItems e start hs)

/-- C9: After every `addToHistory` call the total length of the history
list, pinned entries included, is at most `maxItems`: the
`slice(0, maxItems)` truncation is unconditional. -/
theorem addToHistory_length_le (maxItems : Nat) (item : Item) (l : List Item) :
    (addToHistory maxItems item l).length ≤ maxItems := by
  simp only [addToHistory]
  exact Nat.le_trans (Nat.le_of_eq (List.length_take _ _)) (Nat.min_le_left _ _)

/-- C1 (counterexample): with `maxItems = 1`, adding a fresh unpinned
entry to a list holding one pinned entry evicts the pinned entry: the
eviction step of `addToHistory` does remove pinned entries, contrary to
the claim. -/
theorem addToHistory_evicts_pinned_cex :
    (Item.mk ItemType.text "a" "t0" true 1) ∈
        ([Item.mk ItemType.text "a" "t0" true 1] : List Item) ∧
      (Item.mk ItemType.text "a" "t0" true 1).pinned = true ∧
      (Item.mk ItemType.text "a" "t0" true 1) ∉
        addToHistory 1 (Item.mk ItemType.text "b" "t1" false 2)
          [Item.mk ItemType.text "a" "t0" true 1] := by
  decide

/-- C1 (amended): eviction truncates the deduplicated list to its first
`maxItems` entries regardless of pin flags, so after `addToHistory` the
count of unpinned entries is at most `maxItems` — but pinned entries
beyond the bound are removed too (see the counterexample). -/
theorem addToHistory_unpinned_count_le (maxItems : Nat) (item : Item) (l : List Item) :
    ((addToHistory maxItems item l).countP (fun x => !x.pinned)) ≤ maxItems :=
  Nat.le_trans (List.countP_le_length _) (addToHistory_length_le maxItems item l)

/-- C2: over any sequence of `addToHistory` calls the list holds at most
one entry per distinct `content` (and dedup is preserved from any
dedup'd state); the prior occurrence is removed regardless of position
or pin flag (the only entry sharing the new content is the new item);
and the new entry is prepended at the head whenever `maxItems ≥ 1`. -/
theorem addToHistory_dedup_spec (maxItems : Nat) (item : Item) (l : List Item)
    (seq : List Item) (hl : (contents l).Nodup) (hmax : 1 ≤ maxItems) :
    (contents (addToHistory maxItems item l)).Nodup ∧
      (∀ x ∈ addToHistory maxItems item l, x.content = item.content → x = item) ∧
      (addToHistory maxItems item l).head? = some item ∧
      (contents (runAdds maxItems seq)).Nodup :=
  ⟨nodup_contents_addToHistory maxItems item l hl,
   addToHistory_unique_content maxItems item l,
   addToHistory_headq maxItems item l hmax,
   nodup_contents_runAdds maxItems seq⟩

/-- Witness for C2 at a concrete input. -/
theorem addToHistory_dedup_spec_witness :
    (contents (addToHistory 2 (Item.mk ItemType.text "x" "t" false 3)
        [Item.mk ItemType.text "y" "s" false 1])).Nodup ∧
      (∀ x ∈ addToHistory 2 (Item.mk ItemType.text "x" "t" false 3)
          [Item.mk ItemType.text "y" "s" false 1],
        x.content = (Item.mk ItemType.text "x" "t" false 3).content →
          x = Item.mk ItemType.text "x" "t" false 3) ∧
      (addToHistory 2 (Item.mk ItemType.text "x" "t" false 3)
          [Item.mk ItemType.text "y" "s" false 1]).head? =
        some (Item.mk ItemType.text "x" "t" false 3) ∧
      (contents (runAdds 2 [Item.mk ItemType.text "x" "t" false 3])).Nodup :=
  addToHistory_dedup_spec 2 (Item.mk ItemType.text "x" "t" false 3)
    [Item.mk ItemType.text "y" "s" false 1]
    [Item.mk ItemType.text "x" "t" false 3] (by decide) (by decide)

lemma jsIncludes_iff (hay needle : String) :
    jsIncludes hay needle = true ↔
      ∃ pre post : List Char, hay.data = pre ++ needle.data ++ post := by
  unfold jsIncludes
  rw [List.any_eq_true]
  constructor
  · rintro ⟨t, ht, hp⟩
    rw [List.mem_tails] at ht
    obtain ⟨post, hpost⟩ := List.isPrefixOf_iff_prefix.mp hp
    obtain ⟨pre, hpre⟩ := ht
    exact ⟨pre, post, by rw [← hpre, List.append_assoc, hpost]⟩
  · rintro ⟨pre, post, h⟩
    refine ⟨needle.data ++ post, ?_, ?_⟩
    · rw [List.mem_tails]
      exact ⟨pre, by rw [h, List.append_assoc]⟩
    · exact List.isPrefixOf_iff_prefix.mpr ⟨post, rfl⟩

/-- C7: `searchHistory` returns exactly the entries whose lowercased
content contains the lowercased query as a contiguous substring, and it
is a sublist of the stored list (stored order preserved); the empty
query returns the full stored list unfiltered; and the result is empty
exactly when no stored entry matches. -/
theorem searchHistory_spec (hist : List Item) (query : String) :
    (∀ it, it ∈ searchHistory hist query ↔ it ∈ hist ∧ matchesQuery query it) ∧
      (searchHistory hist query).Sublist hist ∧
      searchHistory hist "" = hist ∧
      (searchHistory hist query = [] ↔ ∀ it ∈ hist, ¬ matchesQuery query it) := by
  have hmatch : ∀ it : Item,
      (jsIncludes (jsToLower it.content) (jsToLower query) = true) ↔ matchesQuery query it :=
    fun it => jsIncludes_iff (jsToLower it.content) (jsToLower query)
  by_cases hq : query = ""
  · subst hq
    have hall : ∀ it : Item, matchesQuery "" it :=
      fun it => ⟨[], (jsToLower it.content).data, rfl⟩
    refine ⟨?_, ?_, ?_, ?_⟩
    · intro it
      simp [searchHistory, hall it]
    · simp [searchHistory]
    · simp [searchHistory]
    · constructor
      · intro h
        rw [show searchHistory hist "" = hist from by simp [searchHistory]] at h
        subst h
        intro it hit
        simp at hit
      · intro h
        cases hist with
        | nil => simp [searchHistory]
        | cons a t => exact absurd (hall a) (h a (List.mem_cons_self a t))
  · have hs : searchHistory hist query =
        hist.filter (fun item => jsIncludes (jsToLower item.content) (jsToLower query)) := by
      simp [searchHistory, hq]
    refine ⟨?_, ?_, ?_, ?_⟩
    · intro it
      rw [hs, List.mem_filter, hmatch it]
    · rw [hs]
      exact List.filter_sublist hist
    · simp [searchHistory]
    · rw [hs, List.filter_eq_nil_iff]
      constructor
      · intro h it hit hm
        exact (h it hit) ((hmatch it).mpr hm)
      · intro h it hit hp
        exact (h it hit) ((hmatch it).mp hp)

lemma shellLex_inside_escaped (l : List Char) :
    shellLex QState.inside ((l.map escQuote).flatten ++ ['\'']) = some l := by
  induction l with
  | nil => rfl
  | cons c t ih =>
    by_cases hc : c = '\''
    · subst hc
      show (shellLex QState.inside ((t.map escQuote).flatten ++ ['\''])).map
          (fun l => '\'' :: l) = some ('\'' :: t)
      rw [ih]
      rfl
    · simp only [List.map_cons, List.flatten_cons, escQuote, if_neg hc, List.cons_append]
      simp [shellLex, hc, ih]

lemma shellLexWord_shellEscape (s : String) : shellLexWord (shellEscape s) = some s := by
  unfold shellLexWord shellEscape
  show (shellLex QState.inside ((s.data.map escQuote).flatten ++ ['\''])).map
      (fun l => (⟨l⟩ : String)) = some s
  rw [shellLex_inside_escaped s.data]
  rfl

lemma flatten_escQuote_of_no_quote (l : List Char) (h : '\'' ∉ l) :
    (l.map escQuote).flatten = l := by
  induction l with
  | nil => rfl
  | cons c t ih =>
    have hc : c ≠ '\'' := fun hc => h (hc ▸ List.mem_cons_self c t)
    simp only [List.map_cons, List.flatten_cons, escQuote, if_neg hc, List.cons_append,
      List.nil_append]
    rw [ih (fun hm => h (List.mem_cons_of_mem c hm))]

/-- C8: `shellEscape` yields a safely single-quoted shell literal: the
shell lexes it back to exactly the original string, with no character of
the payload ever interpreted outside single quotes (only the `'\''`
quote-escape sequence itself sits outside, so content can never escape
the literal); on quote-free strings it is literally the input wrapped in
single quotes. -/
theorem shellEscape_spec (s : String) :
    shellLexWord (shellEscape s) = some s ∧
      ('\'' ∉ s.data → (shellEscape s).data = '\'' :: (s.data ++ ['\''])) := by
  refine ⟨shellLexWord_shellEscape s, fun h => ?_⟩
  show '\'' :: ((s.data.map escQuote).flatten ++ ['\'']) = _
  rw [flatten_escQuote_of_no_quote s.data h]

/-- Witness for C8 at a concrete quote-free input. -/
theorem shellEscape_spec_witness :
    shellLexWord (shellEscape "a b") = some "a b" ∧
      (shellEscape "a b").data = '\'' :: ("a b".data ++ ['\'']) :=
  ⟨(shellEscape_spec "a b").1, (shellEscape_spec "a b").2 (by decide)⟩

lemma tryCommandsSequentially_head_success (ex : String → Bool) (c : String)
    (rest : List String) (hc : ex c = true) :
    tryCommandsSequentially ex (c :: rest) = (Except.ok true, [c]) := by
  cases rest <;> simp [tryCommandsSequentially, hc]

lemma tryCommandsSequentially_head_fail (ex : String → Bool) (c : String)
    (rest : List String) (hc : ex c = false) (hrest : rest ≠ []) :
    tryCommandsSequentially ex (c :: rest) =
      ((tryCommandsSequentially ex rest).1, c :: (tryCommandsSequentially ex rest).2) := by
  cases rest with
  | nil => exact absurd rfl hrest
  | cons d ds =>
    conv_lhs => rw [tryCommandsSequentially]
    simp [hc]

lemma tryCommandsSequentially_first_success (ex : String → Bool) (cmd : String)
    (post : List String) :
    ∀ pre : List String, (∀ p ∈ pre, ex p = false) → ex cmd = true →
      tryCommandsSequentially ex (pre ++ cmd :: post) = (Except.ok true, pre ++ [cmd]) := by
  intro pre
  induction pre with
  | nil =>
    intro _ hcmd
    exact tryCommandsSequentially_head_success ex cmd post hcmd
  | cons p ps ih =>
    intro hpre hcmd
    have hp : ex p = false := hpre p (List.mem_cons_self p ps)
    have hih := ih (fun q hq => hpre q (List.mem_cons_of_mem p hq)) hcmd
    rw [List.cons_append,
      tryCommandsSequentially_head_fail ex p (ps ++ cmd :: post) hp (by simp), hih]
    rfl

lemma tryCommandsSequentially_all_fail (ex : String → Bool) :
    ∀ cmds : List String, cmds ≠ [] → (∀ c ∈ cmds, ex c = false) →
      (tryCommandsSequentially ex cmds).2 = cmds ∧
        ∃ e, (tryCommandsSequentially ex cmds).1 = Except.error e := by
  intro cmds
  induction cmds with
  | nil => intro h; exact absurd rfl h
  | cons c rest ih =>
    intro _ hall
    have hc : ex c = false := hall c (List.mem_cons_self c rest)
    cases rest with
    | nil =>
      refine ⟨?_, c, ?_⟩ <;> simp [tryCommandsSequentially, hc]
    | cons d ds =>
      obtain ⟨htr, e, he⟩ :=
        ih (by simp) (fun q hq => hall q (List.mem_cons_of_mem c hq))
      rw [tryCommandsSequentially_head_fail ex c (d :: ds) hc (by simp)]
      refine ⟨?_, e, he⟩
      show c :: (tryCommandsSequentially ex (d :: ds)).2 = c :: d :: ds
      rw [htr]

/-- C4: the fallback chain tries commands strictly in order: every
command before the first exit-success is executed and the chain stops
there with result `ok true`, commands after the first success never
run; when every command fails the chain executes the whole list and ends
with an error result; and even then `pasteItem` completes, resolving
`true`. -/
theorem tryCommandsSequentially_spec (ex exFail : String → Bool) (pre : List String)
    (cmd : String) (post : List String) (cmds : List String)
    (hpre : ∀ p ∈ pre, ex p = false) (hcmd : ex cmd = true)
    (hne : cmds ≠ []) (hfail : ∀ c, exFail c = false) :
    tryCommandsSequentially ex (pre ++ cmd :: post) = (Except.ok true, pre ++ [cmd]) ∧
      (tryCommandsSequentially exFail cmds).2 = cmds ∧
      (∃ e, (tryCommandsSequentially exFail cmds).1 = Except.error e) ∧
      (∀ (wayland : Bool) (item : Item), (pasteItem wayland exFail item).resolved = true) := by
  obtain ⟨htr, he⟩ :=
    tryCommandsSequentially_all_fail exFail cmds hne (fun c _ => hfail c)
  exact ⟨tryCommandsSequentially_first_success ex cmd post pre hpre hcmd, htr, he,
    fun _ _ => rfl⟩

/-- Witness for C4 at a concrete chain and environments. -/
theorem tryCommandsSequentially_spec_witness :
    tryCommandsSequentially (fun c => c = "ok") (["f1"] ++ "ok" :: ["f2"]) =
        (Except.ok true, ["f1"] ++ ["ok"]) ∧
      (tryCommandsSequentially (fun _ => false) ["f1", "f2"]).2 = ["f1", "f2"] ∧
      (∃ e, (tryCommandsSequentially (fun _ => false) ["f1", "f2"]).1 = Except.error e) ∧
      (∀ (wayland : Bool) (item : Item),
        (pasteItem wayland (fun _ => false) item).resolved = true) :=
  tryCommandsSequentially_spec (fun c => c = "ok") (fun _ => false) ["f1"] "ok" ["f2"]
    ["f1", "f2"] (by decide) (by decide) (by decide) (fun _ => rfl)

/-- C10: `pasteItem` always resolves with the value `true`, whatever the
exec environment reports for the injection chain: the chain callback
ignores its arguments and calls `resolve(true)`. -/
theorem pasteItem_always_resolves_true (wayland : Bool) (ex : String → Bool) (item : Item) :
    (pasteItem wayland ex item).resolved = true := rfl

/-- C3 (counterexample): with the watcher's last-seen text `"a"`,
pasting the history entry for `"b"` (not the most recently captured one)
and then running one poller tick adds a fresh history entry (new id,
new timestamp, `pinned = false`) whose content equals the pasted
entry's content — `pasteItem` never updates `lastClipboardContent`. -/
theorem watcherTick_after_paste_cex :
    (watcherTick 50 3 "t2"
        (clipboardAfterPaste (ClipboardState.mk "a" "")
          (Item.mk ItemType.text "b" "t1" false 2))
        (WatcherState.mk "a" ""
          [Item.mk ItemType.text "a" "t0" false 1,
           Item.mk ItemType.text "b" "t1" false 2])).2 =
      [Item.mk ItemType.text "b" "t2" false 3] ∧
    (Item.mk ItemType.text "b" "t2" false 3).content =
      (Item.mk ItemType.text "b" "t1" false 2).content ∧
    Item.mk ItemType.text "b" "t2" false 3 ≠ Item.mk ItemType.text "b" "t1" false 2 := by
  decide

/-- C3 (amended): `pasteItem` does not update the watcher's last-seen
snapshot, so self-write suppression holds only when the pasted text
entry's content already equals `lastClipboardContent`: under that
condition (and with the image channel unchanged) the next tick adds no
entry at all. Pasting any entry whose content differs from the last-seen
text instead makes the next tick add a fresh entry with that content
(see the counterexample). -/
theorem watcherTick_after_paste_suppression (maxItems freshId : Nat) (nowTs : String)
    (clip : ClipboardState) (s : WatcherState) (item : Item)
    (htext : item.type = ItemType.text) (hlast : item.content = s.lastClipboardContent)
    (himg : clip.imageDataURL = s.lastImageDataURL) :
    (watcherTick maxItems freshId nowTs (clipboardAfterPaste clip item) s).2 = [] := by
  have hclip : clipboardAfterPaste clip item = { clip with text := item.content } := by
    simp [clipboardAfterPaste, htext]
  simp [watcherTick, hclip, hlast, himg]

/-- Witness for the amended C3 at a concrete input. -/
theorem watcherTick_after_paste_suppression_witness :
    (Item.mk ItemType.text "b" "t1" false 2).type = ItemType.text ∧
      (Item.mk ItemType.text "b" "t1" false 2).content =
        (WatcherState.mk "b" "img" []).lastClipboardContent ∧
      (ClipboardState.mk "z" "img").imageDataURL =
        (WatcherState.mk "b" "img" []).lastImageDataURL ∧
      (watcherTick 50 9 "t9"
        (clipboardAfterPaste (ClipboardState.mk "z" "img")
          (Item.mk ItemType.text "b" "t1" false 2))
        (WatcherState.mk "b" "img" [])).2 = [] :=
  ⟨rfl, rfl, rfl,
    watcherTick_after_paste_suppression 50 9 "t9" (ClipboardState.mk "z" "img")
      (WatcherState.mk "b" "img" []) (Item.mk ItemType.text "b" "t1" false 2) rfl rfl rfl⟩

/-- C6 (counterexample): the `toggle-pin` handler (and likewise
`delete-item`) mutates the list and persists it but fires no
`clipboard-updated` notification: at index 0 of a one-item list the
toggle succeeds yet its event trace contains no notification. -/
theorem togglePin_no_notify_cex :
    (togglePinOp 0 [Item.mk ItemType.text "a" "t" false 1]).2.2 = true ∧
      hasNotify (togglePinOp 0 [Item.mk ItemType.text "a" "t" false 1]).2.1 = false ∧
      (deleteItemOp 0 [Item.mk ItemType.text "a" "t" false 1]).2.2 = true ∧
      hasNotify (deleteItemOp 0 [Item.mk ItemType.text "a" "t" false 1]).2.1 = false := by
  decide

/-- C6 (amended): `addToHistory` and `clearHistory` write the store and
then (when the window is present) notify the renderer, in that order;
the `toggle-pin` and `delete-item` handlers write the store but never
send a history-changed notification — their callers see only the
returned boolean. -/
theorem historyOps_persist_before_notify (maxItems : Nat) (item : Item) (l : List Item)
    (i : Nat) :
    (addToHistoryOp true maxItems item l).2 =
        [HEvent.storeWrite (addToHistory maxItems item l),
         HEvent.notify (addToHistory maxItems item l)] ∧
      (clearHistoryOp true l).2 = [HEvent.storeWrite [], HEvent.notify []] ∧
      hasNotify (togglePinOp i l).2.1 = false ∧
      hasNotify (deleteItemOp i l).2.1 = false := by
  refine ⟨rfl, rfl, ?_, ?_⟩
  · unfold togglePinOp
    cases l[i]? with
    | some it => rfl
    | none => rfl
  · unfold deleteItemOp
    by_cases h : i < l.length
    · rw [if_pos h]
      rfl
    · rw [if_neg h]
      rfl

/-- C5 (counterexample): with every registration attempt throwing, the
`set-hotkey` handler still overwrites the persisted hotkey with the new
value and returns `true` — the stored hotkey does not remain unchanged
and the caller does not receive failure. -/
theorem setHotkey_cex :
    (setHotkeyHandler (fun _ => false)
        (HotkeyState.mk "Super+V" ["Super+V"]) "Ctrl+Alt+X").1.stored = "Ctrl+Alt+X" ∧
      (setHotkeyHandler (fun _ => false)
        (HotkeyState.mk "Super+V" ["Super+V"]) "Ctrl+Alt+X").2 = true ∧
      "Ctrl+Alt+X" ≠ "Super+V" := by
  decide

/-- C5 (amended): the `set-hotkey` handler persists the new binding
before attempting registration and returns `true` both on success and
after falling back to `setupGlobalShortcuts`; in particular when no
combination registers at all, the persisted hotkey ends up being the new
value and the caller still receives `true`. -/
theorem setHotkey_amended (reg : String → Bool) (st : HotkeyState) (hk : String)
    (hfail : ∀ c, reg c = false) :
    (∀ reg2 : String → Bool, (setHotkeyHandler reg2 st hk).2 = true) ∧
      (setHotkeyHandler reg st hk).1.stored = hk := by
  constructor
  · intro reg2
    cases hreg : reg2 hk <;> simp [setHotkeyHandler, hreg]
  · simp [setHotkeyHandler, setupGlobalShortcuts, tryHotkeyFallbacks, hotkeyFallbacks, hfail]

/-- Witness for the amended C5 at a concrete input. -/
theorem setHotkey_amended_witness :
    (∀ reg2 : String → Bool,
        (setHotkeyHandler reg2 (HotkeyState.mk "Super+V" []) "Ctrl+Alt+X").2 = true) ∧
      (setHotkeyHandler (fun _ => false)
        (HotkeyState.mk "Super+V" []) "Ctrl+Alt+X").1.stored = "Ctrl+Alt+X" :=
  setHotkey_amended (fun _ => false) (HotkeyState.mk "Super+V" []) "Ctrl+Alt+X"
    (fun _ => rfl)

end Clipped
